import Mathlib

/-!
Verification of the value-walking and type-printing core of netcoredbg
(`src/debug/netcoredbg/valuewalk.cpp` and `src/debug/debugger/typeprinter.cpp`).

The C++ code drives external COM-style debugging interfaces; the embedding
below models each routine over explicit data describing the outcomes of
those external calls (metadata rows, fetch successes, resolved names), and
translates the routine's own control flow line by line.
-/

namespace NetCoreDbg

/-! ## String helpers mirroring the std::string operations used by valuewalk.cpp -/

/-- Index of the last occurrence of `c` in `cs`, if any.
Models `std::string::rfind(c)` (valuewalk.cpp line 275): `none` stands for `npos`. -/
def lastIdxOf (c : Char) : List Char → Option Nat
  | [] => none
  | x :: xs =>
    match lastIdxOf c xs with
    | some i => some (i + 1)
    | none => if x = c then some 0 else none

/-- Models valuewalk.cpp lines 275-276:
`size_t endOffset = name.rfind('>'); name = name.substr(1, endOffset - 1);`
i.e. the compiler backing-field name `<Prop>k__BackingField` is stripped to `Prop`.
When no `'>'` exists, `rfind` yields `npos` and `substr(1, npos - 1)` clamps to
the whole remainder after position 1. -/
def stripBacking (s : String) : String :=
  match lastIdxOf '>' s.data with
  | some e => ⟨(s.data.drop 1).take (e - 1)⟩
  | none => ⟨s.data.drop 1⟩

/-- Models the test `name[0] == '<'` (valuewalk.cpp lines 273 and 286); on an
empty `std::string`, `name[0]` is the null character, which is not `'<'`. -/
def firstCharIsLt (s : String) : Bool :=
  s.data.head? = some '<'

/-! ## WalkMembers: field and property enumeration of one inheritance level
(valuewalk.cpp lines 238-341) -/

/-- One field row of the type's metadata together with the outcomes of the
external calls the walk performs on it:
* `propsOk`   — `GetFieldProps` succeeded (line 248; a failing row is skipped);
* `isLiteral` — `fdLiteral` attribute (line 252);
* `isStatic`  — `fdStatic` attribute (lines 255/259);
* `staticFetchOk`   — `GetStaticFieldValue` produced a value (line 262);
* `instanceFetchOk` — the `ICorDebugObjectValue` query and `GetFieldValue`
  produced a value (lines 266-268). -/
structure FieldInfo where
  name : String
  propsOk : Bool
  isLiteral : Bool
  isStatic : Bool
  staticFetchOk : Bool
  instanceFetchOk : Bool
deriving DecidableEq, Repr

/-- One property row together with the outcomes of its metadata calls:
`getPropsOk` — `GetPropertyProps` succeeded (line 308);
`getterOk` — `GetMethodProps` on the getter succeeded (line 326);
`getterStatic` — `mdStatic` on the getter (line 334). -/
structure PropInfo where
  name : String
  getPropsOk : Bool
  getterOk : Bool
  getterStatic : Bool
deriving DecidableEq, Repr

/-- What kind of member a callback invocation reports:
a field carrying a value (line 281), a field with a null value pointer,
i.e. the "unavailable" marker (line 290), a property carrying only its getter
token (line 338), or an array element (line 198). -/
inductive MemberKind where
  | fieldVal
  | fieldUnavailable
  | prop
  | element
deriving DecidableEq, Repr

/-- One invocation of the `WalkMembersCallback`: the name argument, the
`is_static` argument, and which kind of member produced it. -/
structure Visited where
  name : String
  isStatic : Bool
  kind : MemberKind
deriving DecidableEq, Repr

/-- Whether the field-value fetch produced a non-null `pFieldVal`
(valuewalk.cpp lines 257-269): static fields are fetched only when an IL
frame is present, instance fields through the object accessor. -/
def fieldFetched (hasFrame : Bool) (f : FieldInfo) : Bool :=
  if f.isStatic then hasFrame && f.staticFetchOk else f.instanceFetchOk

/-- The callback invocation (if any) one field row produces, translating the
loop body at valuewalk.cpp lines 243-292:
* failed `GetFieldProps` or `fdLiteral` rows are skipped;
* a fetchable field whose name starts with `'<'` is visited under the
  stripped backing-field name (lines 273-281);
* an unfetchable field whose name starts with `'<'` is dropped entirely
  (lines 286-287);
* non-static fields on a null receiver are suppressed (lines 279-280, 288-289);
* any other unfetchable field is visited with a null value (line 290). -/
def fieldVisit (hasFrame isNull : Bool) (f : FieldInfo) : Option Visited :=
  if f.propsOk = false then none
  else if f.isLiteral then none
  else if fieldFetched hasFrame f then
    let name := if firstCharIsLt f.name then stripBacking f.name else f.name
    if isNull && !f.isStatic then none
    else some ⟨name, f.isStatic, .fieldVal⟩
  else
    if firstCharIsLt f.name then none
    else if isNull && !f.isStatic then none
    else some ⟨f.name, f.isStatic, .fieldUnavailable⟩

/-- The entry (if any) one field row adds to the `backedProperies` set
(valuewalk.cpp line 277): only a FETCHED field whose name starts with `'<'`
records its stripped name; the insertion happens before the null-receiver
suppression, hence does not depend on `isNull`. -/
def fieldBacked (hasFrame : Bool) (f : FieldInfo) : Option String :=
  if f.propsOk = false then none
  else if f.isLiteral then none
  else if fieldFetched hasFrame f && firstCharIsLt f.name then some (stripBacking f.name)
  else none

/-- The callback invocation (if any) one property row produces, translating
the loop body at valuewalk.cpp lines 299-339: rows with failing
`GetPropertyProps` or getter `GetMethodProps` are skipped; a property whose
name is in the backing-field set is skipped (lines 331-332); non-static
getters on a null receiver are suppressed (lines 336-337); otherwise the
property is visited with a null value and its getter token (line 338). -/
def propVisit (isNull : Bool) (backed : List String) (p : PropInfo) : Option Visited :=
  if p.getPropsOk = false then none
  else if p.getterOk = false then none
  else if backed.contains p.name then none
  else if isNull && !p.getterStatic then none
  else some ⟨p.name, p.getterStatic, .prop⟩

/-- The sequence of callback invocations produced by one inheritance level of
`WalkMembers` (valuewalk.cpp lines 240-341): the field loop in declaration
order, then the property loop in declaration order reading the completed
backing-field name set. -/
def walkLevel (hasFrame isNull : Bool) (fields : List FieldInfo) (props : List PropInfo) :
    List Visited :=
  let backed := fields.filterMap (fieldBacked hasFrame)
  fields.filterMap (fieldVisit hasFrame isNull) ++ props.filterMap (propVisit isNull backed)

/-! ## The inheritance chain and the recursive walk (valuewalk.cpp lines 205-357) -/

/-- The element kinds `WalkMembers` distinguishes: `ELEMENT_TYPE_STRING` is an
opaque leaf (line 221); everything else proceeds to field enumeration. -/
inductive ElemKind where
  | str
  | cls
  | valuetype
deriving DecidableEq, Repr

/-- A resolved runtime type as `WalkMembers` consumes it: its element kind
(line 220), the display name `TypePrinter::GetTypeOfValue` resolves for it
(line 234), its directly declared field and property rows, and its base type
when `GetBase` yields one (line 345). -/
inductive RTType where
  | leaf (elemKind : ElemKind) (printedName : String)
      (fields : List FieldInfo) (props : List PropInfo)
  | sub (elemKind : ElemKind) (printedName : String)
      (fields : List FieldInfo) (props : List PropInfo) (base : RTType)
deriving DecidableEq, Repr

def RTType.elemKind : RTType → ElemKind
  | .leaf k _ _ _ => k
  | .sub k _ _ _ _ => k

def RTType.printedName : RTType → String
  | .leaf _ n _ _ => n
  | .sub _ n _ _ _ => n

def RTType.fields : RTType → List FieldInfo
  | .leaf _ _ fs _ => fs
  | .sub _ _ fs _ _ => fs

def RTType.props : RTType → List PropInfo
  | .leaf _ _ _ ps => ps
  | .sub _ _ _ ps _ => ps

/-- The recursive member walk of a non-array value against a resolved type,
translating valuewalk.cpp lines 219-356:
* `ELEMENT_TYPE_STRING` yields no members (lines 221-222);
* a type printing as `decimal` yields no members (lines 235-236);
* otherwise the type's own fields and properties are visited (`walkLevel`);
* then the base type's printed name is inspected (lines 343-354): `System.Enum`
  stops the walk, any name other than `System.Object` / `System.ValueType`
  recurses on the same value with the base as type override. -/
def walkMembersT (hasFrame isNull : Bool) : RTType → List Visited
  | .leaf k n fs ps =>
    if k = .str then []
    else if n = "decimal" then []
    else walkLevel hasFrame isNull fs ps
  | .sub k n fs ps b =>
    if k = .str then []
    else if n = "decimal" then []
    else
      walkLevel hasFrame isNull fs ps ++
        (if b.printedName = "System.Enum" then []
         else if b.printedName ≠ "System.Object" ∧ b.printedName ≠ "System.ValueType" then
           walkMembersT hasFrame isNull b
         else [])

/-! ## Array walking (valuewalk.cpp lines 133-162 and 175-203) -/

/-- One step of the in-place index increment, translating `IncIndicies`
(valuewalk.cpp lines 133-145) on the REVERSED index/dimension lists: the C
loop starts at the last dimension, increments it, stops if it is still below
its bound, and otherwise zeroes it and carries leftward. The lists are zipped
because the source indexes `ind` and `dims` with the same `i`. -/
def incIndiciesRev : List (Nat × Nat) → List Nat
  | [] => []
  | (x, d) :: rest =>
    if x + 1 < d then (x + 1) :: rest.map Prod.fst
    else 0 :: incIndiciesRev rest

/-- `IncIndicies(ind, dims)` (valuewalk.cpp lines 133-145). -/
def incIndicies (ind dims : List Nat) : List Nat :=
  (incIndiciesRev (ind.reverse.zip dims.reverse)).reverse

/-- `IndiciesToStr(ind, base)` (valuewalk.cpp lines 147-162): empty result on
an empty or mismatched index vector, otherwise the values `base[i] + ind[i]`
joined by `", "`. -/
def indiciesToStr (ind base : List Nat) : String :=
  if ind.length < 1 ∨ base.length ≠ ind.length then ""
  else String.intercalate ", " ((ind.zip base).map (fun p => toString (p.2 + p.1)))

/-- The element names emitted by the array loop (valuewalk.cpp lines 192-200),
starting from the index vector `ind` and incrementing after each element. -/
def arrayNamesFrom (dims base : List Nat) : Nat → List Nat → List String
  | 0, _ => []
  | n + 1, ind =>
    ("[" ++ indiciesToStr ind base ++ "]") :: arrayNamesFrom dims base n (incIndicies ind dims)

/-- The element names of the whole array walk: `ind` starts as `nRank` zeros
(valuewalk.cpp line 192) and `cElements` elements are visited. -/
def walkArrayNames (dims base : List Nat) (count : Nat) : List String :=
  arrayNamesFrom dims base count (List.replicate dims.length 0)

/-- The unwrapped value `WalkMembers` dispatches on after
`DereferenceAndUnboxValue` (valuewalk.cpp lines 168-217): a true null
reference (line 173), an array value (line 176) with its dimensions, base
indices (zeros when `HasBaseIndicies` is false, lines 187-190) and element
count, or an object value walked against a resolved type (`isNull` may still
hold for a typed null reference that kept a value pointer). -/
inductive UnwrappedValue where
  | nullRef
  | arrayVal (dims base : List Nat) (count : Nat)
  | objVal (isNull : Bool) (ty : RTType)
deriving DecidableEq, Repr

/-- The full `WalkMembers` entry point (valuewalk.cpp lines 164-357) as the
sequence of callback invocations it produces: a null reference yields none
(line 173); an array yields one anonymous positional element per stored
element, named by the odometer index plus base (lines 194-200); any other
value is walked against its resolved type. -/
def walkMembersV (hasFrame : Bool) : UnwrappedValue → List Visited
  | .nullRef => []
  | .arrayVal dims base count =>
    (walkArrayNames dims base count).map (fun n => ⟨n, false, .element⟩)
  | .objVal isNull ty => walkMembersT hasFrame isNull ty

/-! ## TypePrinter::GetTypeOfValue, value overload (typeprinter.cpp lines 165-180) -/

/-- Outcome of a type-printer call: a resolved display string, or a failing
`HRESULT` propagated to the caller. -/
inductive TPResult where
  | ok (s : String)
  | err
deriving DecidableEq, Repr

/-- A runtime type as the type overload of `GetTypeOfValue` consumes it:
`getTypeOk` is whether `pType->GetType` succeeds (typeprinter.cpp line 187,
propagated by `IfFailRet`), and `switchResult` summarises the outcome of the
switch at lines 189-351 given that `GetType` succeeded (the
class/valuetype arm can itself fail on module or metadata access at lines
226-231; every other arm returns a fixed or composed string). -/
structure TpType where
  getTypeOk : Bool
  switchResult : TPResult
deriving DecidableEq, Repr

/-- The type overload `TypePrinter::GetTypeOfValue(ICorDebugType*, std::string&)`
(typeprinter.cpp lines 354-362 delegating to lines 182-352): fails when the
type's `GetType` fails, otherwise produces the switch's outcome. -/
def getTypeOfValueT (t : TpType) : TPResult :=
  if t.getTypeOk then t.switchResult else .err

/-- A runtime value as the value overload of `GetTypeOfValue` consumes it:
`getTypeOk` is whether `pValue->GetType` succeeds (line 170, propagated by
`IfFailRet`; the element kind it yields is never used afterwards), and
`exactType` is `some t` exactly when both the `ICorDebugValue2` query and
`GetExactType` succeed (line 174). -/
structure DbgValueT where
  getTypeOk : Bool
  exactType : Option TpType
deriving DecidableEq, Repr

/-- The value overload `TypePrinter::GetTypeOfValue(ICorDebugValue*, std::string&)`
(typeprinter.cpp lines 165-180): propagates a failing `pValue->GetType`;
otherwise resolves the exact type through the type overload when the value
exposes one, and outputs the fixed placeholder `<unknown>` when it does not. -/
def getTypeOfValueV (v : DbgValueT) : TPResult :=
  if v.getTypeOk = false then .err
  else
    match v.exactType with
    | some t => getTypeOfValueT t
    | none => .ok "<unknown>"

/-! ## Stack-frame walking: closure flattening
(valuewalk.cpp lines 364-434 and 436-547) -/

/-- `std::equal(p.begin(), p.end(), s.begin())` as used by the flattening
routines: character-wise prefix comparison of `p` against the start of `s`. -/
def strStartsWith (p s : String) : Bool :=
  p.data.isPrefixOf s.data

/-- The hoisted-capture marker `CS$<>` (valuewalk.cpp line 369) as a prefix
test on a member or local name. The source performs this comparison with
`std::equal` over the five marker characters; given that the compared name has
at least five characters (see the separate access-bounds analysis), the
comparison is exactly this prefix test. -/
def startsWithCapture (s : String) : Bool :=
  strStartsWith "CS$<>" s

/-- The suffix of `cs` after its last `'.'`, or `none` when no `'.'` occurs.
Models `typeName.find_last_of('.')` followed by `typeName.substr(start + 1)`
(valuewalk.cpp lines 406-410), with `none` for the `npos` early return. -/
def afterLastDotL : List Char → Option (List Char)
  | [] => none
  | c :: cs =>
    match afterLastDotL cs with
    | some r => some r
    | none => if c = '.' then some cs else none

/-- String form of `afterLastDotL`. -/
def afterLastDot (s : String) : Option String :=
  (afterLastDotL s.data).map (fun cs => ⟨cs⟩)

/-- A runtime value abstracted by the `(name, value)` stream `WalkMembers`
emits for it: each member callback carries a name and the member's own value,
which can in turn be walked. The closure-flattening routines consume
`WalkMembers` only through this stream. -/
inductive VTree where
  | node : List (String × VTree) → VTree

def VTree.members : VTree → List (String × VTree)
  | node ms => ms

/-- `HandleSpecialLocalVar` (valuewalk.cpp lines 364-392) as the list of
`(name, value)` pairs it passes to the stack-walk callback: `none` models the
`S_FALSE` return (name does not start with the marker, line 373); otherwise
the local's members are emitted in its place, except that members whose own
name starts with the marker are dropped with no further action (lines
386-387). -/
def handleSpecialLocalVar (localName : String) (v : VTree) :
    Option (List (String × VTree)) :=
  if startsWithCapture localName = false then none
  else some (v.members.filter (fun p => !startsWithCapture p.1))

/-- `HandleSpecialThisParam` (valuewalk.cpp lines 394-434) as the list of
`(name, value)` pairs it passes to the stack-walk callback, given the display
name `typeName` that `TypePrinter::GetTypeOfValue` resolved for the `this`
value: `none` models `S_FALSE` (the caller emits `this` normally). The source
takes the substring after the last `'.'` (lines 406-410, `S_FALSE` when there
is none), returns `S_FALSE` unless it starts with `<>c` (line 412), suppresses
the value entirely when it does not also start with `<>c__DisplayClass`
(line 415), and otherwise walks the members, routing each through
`HandleSpecialLocalVar` and emitting those it does not handle under their
name, or `this` for an empty name (lines 419-432). -/
def handleSpecialThisParam (typeName : String) (v : VTree) :
    Option (List (String × VTree)) :=
  match afterLastDot typeName with
  | none => none
  | some simpleName =>
    if strStartsWith "<>c" simpleName = false then none
    else if strStartsWith "<>c__DisplayClass" simpleName = false then some []
    else some (v.members.flatMap (fun p =>
      match handleSpecialLocalVar p.1 p.2 with
      | some ems => ems
      | none => [(if p.1 = "" then "this" else p.1, p.2)]))

/-- How `WalkStackVars` emits the `this` argument (valuewalk.cpp lines
498-505): `HandleSpecialThisParam` returning `S_OK` replaces the emission;
`S_FALSE` falls through to a normal callback under the name `this`. -/
def emitThisParam (typeName : String) (v : VTree) : List (String × VTree) :=
  match handleSpecialThisParam typeName v with
  | some ems => ems
  | none => [("this", v)]

/-! ## Stack-frame walking: argument names (valuewalk.cpp lines 463-505) -/

/-- The parameter-metadata index `WalkStackVars` queries for argument `i`
(valuewalk.cpp line 479): `int idx = ((methodAttr & mdStatic) == 0) ? i : (i + 1);`
— when the method is static the implicit `this` is absent and argument `i`
is the metadata row one past its position; when an implicit `this` is present
the index coincides with the argument position. -/
def paramMetaIdx (methodIsStatic : Bool) (i : Nat) : Nat :=
  if methodIsStatic then i + 1 else i

/-- The name `WalkStackVars` computes for a non-`this` argument `i`
(valuewalk.cpp lines 477-484). `lookup idx` models
`GetParamForMethodIndex` + `GetParamProps`: `none` when the row lookup fails
(the buffer keeps its initial empty string), `some n` for a retrieved name
(possibly empty). An empty buffer falls back to `param_<i>` with the
argument's position `i` (line 484). -/
def argName (methodIsStatic : Bool) (lookup : Nat → Option String) (i : Nat) : String :=
  let fetched :=
    match lookup (paramMetaIdx methodIsStatic i) with
    | some n => n
    | none => ""
  if fetched = "" then "param_" ++ toString i else fetched

/-- The name `WalkStackVars` computes for argument `i` including the implicit
`this` detection (valuewalk.cpp lines 474-476): argument 0 of a non-static
method is named `this` and never consults parameter metadata. -/
def stackArgName (methodIsStatic : Bool) (lookup : Nat → Option String) (i : Nat) : String :=
  if i == 0 && !methodIsStatic then "this" else argName methodIsStatic lookup i

/-! ## Evaluator synchronisation (valuewalk.cpp lines 23-46)

`WaitEvalResult` and `NotifyEvalComplete` manipulate the process-wide triple
`g_evalMutex` / `g_evalCV` / `g_evalComplete`. Two views are modelled: the
straight-line action sequence each routine performs (for lock-discipline and
ordering facts), and an interleaving trace semantics of two sequential
evaluations (for the signal-freshness property). -/

/-- The atomic actions the two routines perform on the shared triple. -/
inductive DbgAction where
  | lockMutex
  | clearFlagA
  | resumeProcessA
  | waitFlagA
  | setFlagA
  | notifyCvA
  | unlockMutex
deriving DecidableEq, Repr

/-- The action sequence of `WaitEvalResult` (valuewalk.cpp lines 40-45):
the `unique_lock` constructor locks, `g_evalComplete = false` clears the flag,
`pProcess->Continue(0)` resumes the debuggee, `g_evalCV.wait` blocks until the
flag holds, and the `unique_lock` destructor unlocks on return. -/
def waitEvalResultActions : List DbgAction :=
  [.lockMutex, .clearFlagA, .resumeProcessA, .waitFlagA, .unlockMutex]

/-- The action sequence of `NotifyEvalComplete` (valuewalk.cpp lines 27-33):
the `lock_guard` constructor locks, `g_evalComplete = true` sets the flag,
line 31 explicitly unlocks, `notify_one` signals, and the `lock_guard`
destructor unlocks a second time at scope exit. -/
def notifyEvalCompleteActions : List DbgAction :=
  [.lockMutex, .setFlagA, .unlockMutex, .notifyCvA, .unlockMutex]

/-- Lock-discipline semantics of one action over the mutex state:
`some true` / `some false` is a mutex currently locked / unlocked by wellformed
history, `none` records a violation (unlocking a mutex that is not held, or
re-locking a non-recursive mutex already held by the same thread). Flag and
condition-variable actions do not touch the mutex. -/
def muStep : Option Bool → DbgAction → Option Bool
  | some false, .lockMutex => some true
  | some true, .lockMutex => none
  | some true, .unlockMutex => some false
  | some false, .unlockMutex => none
  | some b, _ => some b
  | none, _ => none

/-- Runs an action sequence from an unlocked mutex under lock-discipline
semantics. -/
def muRun (l : List DbgAction) : Option Bool :=
  l.foldl muStep (some false)

/-! ### Interleaving traces of two sequential evaluations -/

/-- Events of a run of two evaluations, labelled by `k : Bool` (`false` for
the first call, `true` for the second): the debugger thread clearing
`g_evalComplete` (line 41), the debugger thread resuming the debuggee process
(line 42), the external completion source setting the flag inside
`NotifyEvalComplete` (line 30), and the debugger thread's `cv.wait` observing
the flag and returning (line 43). -/
inductive EvEvent where
  | clearE (k : Bool)
  | resumeE (k : Bool)
  | setFlagE (k : Bool)
  | wakeE (k : Bool)
deriving DecidableEq, Repr

/-- Effect of one event on the shared boolean `g_evalComplete`. -/
def flagStep (b : Bool) : EvEvent → Bool
  | .clearE _ => false
  | .setFlagE _ => true
  | .resumeE _ => b
  | .wakeE _ => b

/-- The value of `g_evalComplete` after a trace (initially `false`,
valuewalk.cpp line 25). -/
def flagAfter (tr : List EvEvent) : Bool :=
  tr.foldl flagStep false

/-- Position of the first occurrence of an event in a trace. -/
def epos (tr : List EvEvent) (e : EvEvent) : Nat :=
  List.indexOf e tr

/-- A valid interleaved trace of two sequential evaluations. The per-thread
orders come straight from the code: each `WaitEvalResult` clears the flag,
then resumes, then wakes (lines 41-43; the mutex makes each action atomic
against the notifier). The environment constraints come from the documented
protocol: the completion source sets the flag exactly once per evaluation and
only after that evaluation resumed the debuggee; the second evaluation starts
(clears) only after the first call returned (woke); and `cv.wait` returns
only when the flag is observed `true`. -/
structure ValidRun (tr : List EvEvent) : Prop where
  onceClear : ∀ k, tr.count (.clearE k) = 1
  onceResume : ∀ k, tr.count (.resumeE k) = 1
  onceSet : ∀ k, tr.count (.setFlagE k) = 1
  onceWake : ∀ k, tr.count (.wakeE k) = 1
  clearBeforeResume : ∀ k, epos tr (.clearE k) < epos tr (.resumeE k)
  resumeBeforeWake : ∀ k, epos tr (.resumeE k) < epos tr (.wakeE k)
  firstWakeBeforeSecondClear : epos tr (.wakeE false) < epos tr (.clearE true)
  setAfterResume : ∀ k, epos tr (.resumeE k) < epos tr (.setFlagE k)
  wakeSeesFlag : ∀ k, flagAfter (tr.take (epos tr (.wakeE k))) = true

/-! ## Bounds of the marker comparison (valuewalk.cpp lines 369-373, 386,
412 and 415)

`std::equal(captureName.begin(), captureName.end(), localName.begin())`
requires the range `[localName.begin(), localName.begin() + captureName.size())`
to be readable; with the five-character marker `CS$<>` the call therefore
requires character positions `0..4` of the compared name to exist. -/

/-- The character positions of the compared name whose validity the
`std::equal` call requires: one per character of the marker `CS$<>`. -/
def equalReadPositions : List Nat :=
  List.range ("CS$<>".length)

/-- The comparison touches only in-bounds characters of `name`. -/
def readsInBounds (name : String) : Prop :=
  ∀ i ∈ equalReadPositions, i < name.length

instance (name : String) : Decidable (readsInBounds name) := by
  unfold readsInBounds; infer_instance

/-! ## General helper lemmas -/

/-- If no element of `l` maps under `g` to a value satisfying `P`, the filtered
image is empty. -/
theorem filter_filterMap_eq_nil {α β : Type} (g : α → Option β) (P : β → Bool) :
    ∀ l : List α, (∀ a ∈ l, ∀ b, g a = some b → P b = false) →
      (l.filterMap g).filter P = [] := by
  intro l
  induction l with
  | nil => intro _; rfl
  | cons x xs ih =>
    intro h
    have hxs := ih fun a ha b hb => h a (List.mem_cons_of_mem _ ha) b hb
    cases hg : g x with
    | none => simpa [List.filterMap_cons, hg] using hxs
    | some b =>
      have hPb := h x (List.mem_cons_self _ _) b hg
      simp [List.filterMap_cons, hg, List.filter_cons, hPb, hxs]

/-- In a list containing exactly one copy of `a`, any position holding `a` is
the first occurrence. -/
theorem getElem?_some_eq_indexOf {α : Type} [DecidableEq α] :
    ∀ (l : List α) (a : α), List.count a l = 1 →
      ∀ q, l[q]? = some a → q = List.indexOf a l := by
  intro l
  induction l with
  | nil => intro a _ q hq; simp at hq
  | cons x xs ih =>
    intro a hc q hq
    by_cases hx : x = a
    · subst hx
      have hc0 : List.count x xs = 0 := by
        have := List.count_cons_self x xs
        omega
      cases q with
      | zero => simp
      | succ r =>
        exfalso
        rw [List.getElem?_cons_succ] at hq
        obtain ⟨h1, h2⟩ := List.getElem?_eq_some_iff.mp hq
        exact (List.count_eq_zero.mp hc0) (h2 ▸ List.getElem_mem h1)
    · have hcc : List.count a xs = 1 := by
        rw [List.count_cons] at hc
        have hb : (x == a) = false := beq_eq_false_iff_ne.mpr hx
        rw [hb] at hc
        simpa using hc
      cases q with
      | zero =>
        rw [List.getElem?_cons_zero] at hq
        exact absurd (Option.some.inj hq) hx
      | succ r =>
        rw [List.getElem?_cons_succ] at hq
        rw [List.indexOf_cons_ne _ hx]
        have := ih a hcc r hq
        omega

/-! ## Claim theorems -/

/-- C2 counterexample: on the rectangular array with lower bounds `[1,2]` and
lengths `[2,3]`, the element names the walk emits are NOT the claimed
`[1,2]`, `[1,3]`, ...: the source joins the indices with `", "` (comma and a
space, valuewalk.cpp line 158), so the first emitted name is `[1, 2]`. -/
theorem walk_array_2x3_names_ne_claim :
    (walkMembersV true (.arrayVal [2, 3] [1, 2] 6)).map Visited.name ≠
      ["[1,2]", "[1,3]", "[1,4]", "[2,2]", "[2,3]", "[2,4]"] := by
  decide

/-- C2 (amended): walking a rectangular two-dimensional array with lower
bounds `[1,2]` and lengths `[2,3]` visits exactly 6 elements whose names, in
visit order, are `[1, 2]`, `[1, 3]`, `[1, 4]`, `[2, 2]`, `[2, 3]`, `[2, 4]`
(separator `", "`): indices advance in odometer order, last dimension
fastest, offset by each dimension's lower bound. -/
theorem walk_array_2x3_names :
    (walkMembersV true (.arrayVal [2, 3] [1, 2] 6)).map Visited.name =
      ["[1, 2]", "[1, 3]", "[1, 4]", "[2, 2]", "[2, 3]", "[2, 4]"] := by
  rfl

/-- C9: `NotifyEvalComplete` unlocks `g_evalMutex` twice — explicitly at
valuewalk.cpp line 31 before `notify_one`, and again when the `lock_guard`
is destroyed at scope exit — and the second unlock violates lock discipline:
it is performed while the mutex is no longer held. -/
theorem notify_unlocks_twice_violating_discipline :
    notifyEvalCompleteActions.count .unlockMutex = 2 ∧
      muRun notifyEvalCompleteActions = none := by
  decide

/-- C10: the `std::equal` prefix comparison against the five-character marker
`CS$<>` requires read access to positions 0..4 of the compared name, so it
touches only in-bounds characters exactly when the name has at least five
characters; for every shorter name some required position lies past the end
of the name. -/
theorem capture_marker_read_bounds :
    (∀ name : String, readsInBounds name ↔ 5 ≤ name.length) ∧
    (∀ name : String, name.length < 5 → ∃ i ∈ equalReadPositions, name.length ≤ i) := by
  have hmem : (4 : Nat) ∈ equalReadPositions := by decide
  have hall : ∀ i ∈ equalReadPositions, i < 5 := by decide
  constructor
  · intro name
    constructor
    · intro h
      have := h 4 hmem
      omega
    · intro h i hi
      have := hall i hi
      omega
  · intro name h
    exact ⟨4, hmem, by omega⟩

/-- C10 witness: the three-character name `CS$` (shorter than the marker)
forces a required read at position 3 or beyond. -/
theorem capture_marker_read_bounds_witness :
    ∃ i ∈ equalReadPositions, ("CS$" : String).length ≤ i :=
  capture_marker_read_bounds.2 "CS$" (by decide)

/-- C5 counterexample: the value overload of `GetTypeOfValue` DOES return a
failure to the caller when the value's own `GetType` fails — typeprinter.cpp
line 170 propagates that failure through `IfFailRet` before the
exact-type/placeholder logic is reached. -/
theorem getTypeOfValue_fails_on_gettype_failure :
    getTypeOfValueV ⟨false, none⟩ = .err := by
  rfl

/-- C5 (amended): provided the value's own `GetType` call succeeds, the value
overload of `GetTypeOfValue` resolves the exact type through the type
overload when the value exposes one (propagating that resolution's outcome,
including its failure), and otherwise sets the output to the fixed
placeholder `<unknown>` and returns success. -/
theorem getTypeOfValue_value_overload (v : DbgValueT) (h : v.getTypeOk = true) :
    (v.exactType = none → getTypeOfValueV v = .ok "<unknown>") ∧
    (∀ t, v.exactType = some t → getTypeOfValueV v = getTypeOfValueT t) := by
  constructor
  · intro he
    simp [getTypeOfValueV, h, he]
  · intro t ht
    simp [getTypeOfValueV, h, ht]

/-- C5 witness: concrete instances of both branches of the amended claim. -/
theorem getTypeOfValue_value_overload_witness :
    getTypeOfValueV ⟨true, none⟩ = .ok "<unknown>" ∧
      getTypeOfValueV ⟨true, some ⟨true, .ok "int"⟩⟩ = getTypeOfValueT ⟨true, .ok "int"⟩ :=
  ⟨(getTypeOfValue_value_overload ⟨true, none⟩ rfl).1 rfl,
   (getTypeOfValue_value_overload ⟨true, some ⟨true, .ok "int"⟩⟩ rfl).2 _ rfl⟩

/-- C6: a non-`this` argument `i` takes its name from parameter metadata at
index `i` when an implicit `this` occupies argument slot 0, and at index
`i + 1` when the method is static (`paramMetaIdx`, valuewalk.cpp line 479);
when the metadata lookup fails or supplies an empty name, the name defaults
to `param_<i>` with `i` the argument's position (line 484). The implicit
`this` argument itself (slot 0 of a non-static method) never consults
metadata. -/
theorem stack_arg_naming (methodIsStatic : Bool) (lookup : Nat → Option String) (i : Nat) :
    (∀ n, lookup (paramMetaIdx methodIsStatic i) = some n → n ≠ "" →
      argName methodIsStatic lookup i = n) ∧
    ((lookup (paramMetaIdx methodIsStatic i) = none ∨
        lookup (paramMetaIdx methodIsStatic i) = some "") →
      argName methodIsStatic lookup i = "param_" ++ toString i) ∧
    (¬(i = 0 ∧ methodIsStatic = false) →
      stackArgName methodIsStatic lookup i = argName methodIsStatic lookup i) := by
  refine ⟨?_, ?_, ?_⟩
  · intro n hn hne
    simp [argName, hn, hne]
  · rintro (h | h) <;> simp [argName, h]
  · intro h
    rcases Nat.eq_zero_or_pos i with hi | hi
    · subst hi
      cases methodIsStatic with
      | false => exact absurd ⟨rfl, rfl⟩ h
      | true => rfl
    · have hz : (i == 0) = false := beq_eq_false_iff_ne.mpr (Nat.pos_iff_ne_zero.mp hi)
      unfold stackArgName
      rw [hz]
      rfl

/-- C6 witness: a method with one named metadata row. For an instance method,
argument 1 reads metadata row 1; for a static method, argument 1 reads
metadata row 2 (absent here, so the name defaults to `param_1`). -/
theorem stack_arg_naming_witness :
    argName false (fun n => if n = 1 then some "x" else none) 1 = "x" ∧
      argName true (fun n => if n = 1 then some "x" else none) 1 = "param_" ++ toString 1 ∧
      stackArgName false (fun n => if n = 1 then some "x" else none) 1 =
        argName false (fun n => if n = 1 then some "x" else none) 1 :=
  ⟨(stack_arg_naming false _ 1).1 "x" rfl (by decide),
   (stack_arg_naming true _ 1).2.1 (Or.inl rfl),
   (stack_arg_naming false _ 1).2.2 (by simp)⟩

/-- Any visit produced by a property row carries that row's name. -/
theorem propVisit_name (isNull : Bool) (backed : List String) (q : PropInfo) (v : Visited)
    (h : propVisit isNull backed q = some v) : v.name = q.name := by
  unfold propVisit at h
  split_ifs at h
  all_goals first
    | exact Option.noConfusion h
    | rw [← Option.some.inj h]

/-- A membership witness makes `List.contains` true. -/
theorem contains_eq_true_of_mem {α : Type} [BEq α] [LawfulBEq α] {a : α} {l : List α}
    (h : a ∈ l) : l.contains a = true :=
  List.elem_eq_true_of_mem h

/-- Non-membership makes `List.contains` false. -/
theorem contains_eq_false_of_not_mem {α : Type} [BEq α] [LawfulBEq α] {a : α} {l : List α}
    (h : a ∉ l) : l.contains a = false := by
  rw [List.contains_eq_any_beq, List.any_eq_false]
  intro x hx
  exact fun hbeq => h ((beq_iff_eq.mp hbeq) ▸ hx)

/-- C1 counterexample: an auto-property `Name` whose backing field is
UNFETCHABLE does get a member named `Name` visited — the backing field is
dropped without entering the `backedProperies` set (valuewalk.cpp lines
286-287), so the property row `Name` is not skipped at lines 331-332 and is
visited at line 338. The claim that no member named `Name` is visited at all
is therefore false. -/
theorem backing_field_unfetchable_property_still_visited :
    walkLevel true false
        [⟨"<Name>k__BackingField", true, false, false, false, false⟩]
        [⟨"Name", true, true, false⟩] =
      [⟨"Name", false, .prop⟩] := by
  rfl

/-- C1 (amended): for a walked level with exactly one field row collapsing to
the logical name `N` (a compiler backing field) and exactly one property row
named `N`: if the backing field's value is fetchable, exactly one member
named `N` is visited — the field, under the stripped name (the property is
skipped); if the backing field's value is unfetchable, the field is dropped
entirely and instead exactly one member named `N` is visited — the property,
carrying only its getter. In both cases exactly one member named `N` is
visited, never two. -/
theorem backing_field_collapse
    (hasFrame : Bool) (N : String) (b : FieldInfo) (p : PropInfo)
    (fs1 fs2 : List FieldInfo) (ps1 ps2 : List PropInfo)
    (hbProps : b.propsOk = true) (hbLit : b.isLiteral = false)
    (hbLt : firstCharIsLt b.name = true) (hbStrip : stripBacking b.name = N)
    (hpProps : p.getPropsOk = true) (hpGet : p.getterOk = true) (hpName : p.name = N)
    (hfOther : ∀ f ∈ fs1 ++ fs2,
      (∀ v, fieldVisit hasFrame false f = some v → v.name ≠ N) ∧
      fieldBacked hasFrame f ≠ some N)
    (hpOther : ∀ q ∈ ps1 ++ ps2, q.name ≠ N) :
    (walkLevel hasFrame false (fs1 ++ b :: fs2) (ps1 ++ p :: ps2)).filter
        (fun v => v.name == N) =
      (if fieldFetched hasFrame b then [⟨N, b.isStatic, .fieldVal⟩]
       else [⟨N, p.getterStatic, .prop⟩]) := by
  have hfs1 : ∀ f ∈ fs1, (∀ v, fieldVisit hasFrame false f = some v → v.name ≠ N) ∧
      fieldBacked hasFrame f ≠ some N :=
    fun f hf => hfOther f (List.mem_append_left _ hf)
  have hfs2 : ∀ f ∈ fs2, (∀ v, fieldVisit hasFrame false f = some v → v.name ≠ N) ∧
      fieldBacked hasFrame f ≠ some N :=
    fun f hf => hfOther f (List.mem_append_right _ hf)
  have hps1 : ∀ q ∈ ps1, q.name ≠ N := fun q hq => hpOther q (List.mem_append_left _ hq)
  have hps2 : ∀ q ∈ ps2, q.name ≠ N := fun q hq => hpOther q (List.mem_append_right _ hq)
  have hFnil : ∀ l : List FieldInfo,
      (∀ f ∈ l, ∀ v, fieldVisit hasFrame false f = some v → v.name ≠ N) →
      (l.filterMap (fieldVisit hasFrame false)).filter (fun v => v.name == N) = [] :=
    fun l hl => filter_filterMap_eq_nil _ _ l fun a ha v hv =>
      beq_eq_false_iff_ne.mpr (hl a ha v hv)
  have hPnil : ∀ (backed : List String) (l : List PropInfo), (∀ q ∈ l, q.name ≠ N) →
      (l.filterMap (propVisit false backed)).filter (fun v => v.name == N) = [] :=
    fun backed l hl => filter_filterMap_eq_nil _ _ l fun a ha v hv =>
      beq_eq_false_iff_ne.mpr ((propVisit_name _ _ _ _ hv) ▸ hl a ha)
  cases hbf : fieldFetched hasFrame b with
  | true =>
    have hvb : fieldVisit hasFrame false b = some ⟨N, b.isStatic, .fieldVal⟩ := by
      simp [fieldVisit, hbProps, hbLit, hbf, hbLt, hbStrip]
    have hback : fieldBacked hasFrame b = some N := by
      simp [fieldBacked, hbProps, hbLit, hbf, hbLt, hbStrip]
    have hNmem : N ∈ (fs1 ++ b :: fs2).filterMap (fieldBacked hasFrame) :=
      List.mem_filterMap.mpr
        ⟨b, List.mem_append_right _ (List.mem_cons_self _ _), hback⟩
    have hcont : ((fs1 ++ b :: fs2).filterMap (fieldBacked hasFrame)).contains N = true :=
      contains_eq_true_of_mem hNmem
    have hvp : propVisit false ((fs1 ++ b :: fs2).filterMap (fieldBacked hasFrame)) p = none := by
      simp only [propVisit, hpProps, hpGet, hpName, hcont]
      simp
    have hA : ((fs1 ++ b :: fs2).filterMap (fieldVisit hasFrame false)).filter
        (fun v => v.name == N) = [⟨N, b.isStatic, .fieldVal⟩] := by
      rw [List.filterMap_append fs1 (b :: fs2) (fieldVisit hasFrame false),
        List.filter_append, List.filterMap_cons_some hvb,
        List.filter_cons_of_pos (by simp),
        hFnil fs1 (fun f hf => (hfs1 f hf).1), hFnil fs2 (fun f hf => (hfs2 f hf).1)]
      exact List.nil_append _
    have hB : ((ps1 ++ p :: ps2).filterMap
          (propVisit false ((fs1 ++ b :: fs2).filterMap (fieldBacked hasFrame)))).filter
        (fun v => v.name == N) = [] := by
      rw [List.filterMap_append ps1 (p :: ps2)
          (propVisit false ((fs1 ++ b :: fs2).filterMap (fieldBacked hasFrame))),
        List.filter_append, List.filterMap_cons_none hvp,
        hPnil ((fs1 ++ b :: fs2).filterMap (fieldBacked hasFrame)) ps1 hps1,
        hPnil ((fs1 ++ b :: fs2).filterMap (fieldBacked hasFrame)) ps2 hps2]
      exact List.nil_append _
    simp only [walkLevel]
    rw [List.filter_append, hA, hB]
    simp
  | false =>
    have hvb : fieldVisit hasFrame false b = none := by
      simp [fieldVisit, hbProps, hbLit, hbf, hbLt]
    have hback : fieldBacked hasFrame b = none := by
      simp [fieldBacked, hbProps, hbLit, hbf]
    have hNnot : N ∉ (fs1 ++ b :: fs2).filterMap (fieldBacked hasFrame) := by
      intro hmem
      rcases List.mem_filterMap.mp hmem with ⟨a, ha, hg⟩
      rcases List.mem_append.mp ha with ha1 | ha2
      · exact (hfs1 a ha1).2 hg
      · rcases List.mem_cons.mp ha2 with rfl | ha3
        · rw [hback] at hg
          cases hg
        · exact (hfs2 a ha3).2 hg
    have hcont : ((fs1 ++ b :: fs2).filterMap (fieldBacked hasFrame)).contains N = false :=
      contains_eq_false_of_not_mem hNnot
    have hvp : propVisit false ((fs1 ++ b :: fs2).filterMap (fieldBacked hasFrame)) p =
        some ⟨N, p.getterStatic, .prop⟩ := by
      simp only [propVisit, hpProps, hpGet, hpName, hcont]
      simp
    have hA : ((fs1 ++ b :: fs2).filterMap (fieldVisit hasFrame false)).filter
        (fun v => v.name == N) = [] := by
      rw [List.filterMap_append fs1 (b :: fs2) (fieldVisit hasFrame false),
        List.filter_append, List.filterMap_cons_none hvb,
        hFnil fs1 (fun f hf => (hfs1 f hf).1), hFnil fs2 (fun f hf => (hfs2 f hf).1)]
      exact List.nil_append _
    have hB : ((ps1 ++ p :: ps2).filterMap
          (propVisit false ((fs1 ++ b :: fs2).filterMap (fieldBacked hasFrame)))).filter
        (fun v => v.name == N) = [⟨N, p.getterStatic, .prop⟩] := by
      rw [List.filterMap_append ps1 (p :: ps2)
          (propVisit false ((fs1 ++ b :: fs2).filterMap (fieldBacked hasFrame))),
        List.filter_append, List.filterMap_cons_some hvp,
        List.filter_cons_of_pos (by simp),
        hPnil ((fs1 ++ b :: fs2).filterMap (fieldBacked hasFrame)) ps1 hps1,
        hPnil ((fs1 ++ b :: fs2).filterMap (fieldBacked hasFrame)) ps2 hps2]
      exact List.nil_append _
    simp only [walkLevel]
    rw [List.filter_append, hA, hB]
    simp

/-- C1 witness: the amended collapse behaviour at concrete one-field,
one-property levels — a fetchable backing field yields exactly the collapsed
field member, an unfetchable one yields exactly the property member. -/
theorem backing_field_collapse_witness :
    (walkLevel true false [⟨"<Name>k__BackingField", true, false, false, false, true⟩]
        [⟨"Name", true, true, false⟩]).filter (fun v => v.name == "Name") =
      [⟨"Name", false, .fieldVal⟩] ∧
    (walkLevel true false [⟨"<Name>k__BackingField", true, false, false, false, false⟩]
        [⟨"Name", true, true, false⟩]).filter (fun v => v.name == "Name") =
      [⟨"Name", false, .prop⟩] := by
  constructor
  · exact backing_field_collapse true "Name"
      ⟨"<Name>k__BackingField", true, false, false, false, true⟩
      ⟨"Name", true, true, false⟩ [] [] [] [] rfl rfl rfl rfl rfl rfl rfl
      (by intro f hf; cases hf) (by intro q hq; cases hq)
  · exact backing_field_collapse true "Name"
      ⟨"<Name>k__BackingField", true, false, false, false, false⟩
      ⟨"Name", true, true, false⟩ [] [] [] [] rfl rfl rfl rfl rfl rfl rfl
      (by intro f hf; cases hf) (by intro q hq; cases hq)

/-- C3 counterexample: walking a value of a type deriving directly from
`System.Enum` does invoke the visitor — the base-type check at valuewalk.cpp
lines 343-354 only stops the RECURSION into the base, but it runs after the
type's own field loop, which visits the enum's non-literal instance field
`value__` (the named constants are `fdLiteral` and are skipped at line 252). -/
theorem enum_value_field_is_visited :
    walkMembersV true (.objVal false
        (.sub .valuetype "Season"
          [⟨"value__", true, false, false, false, true⟩,
           ⟨"Spring", true, true, true, false, false⟩]
          []
          (.leaf .cls "System.Enum" [] []))) =
      [⟨"value__", false, .fieldVal⟩] := by
  rfl

/-- C3 (amended): for a type whose base resolves to `System.Enum`, the walk
stops at the base — no member of `System.Enum` or above is ever visited — but
the type's OWN fields and properties are still enumerated, so the walk yields
exactly the type's own level (e.g. the `value__` instance field of an enum),
not zero members. -/
theorem enum_base_stops_walk (hasFrame isNull : Bool) (k : ElemKind) (n : String)
    (fs : List FieldInfo) (ps : List PropInfo) (b : RTType)
    (hb : b.printedName = "System.Enum") (hk : k ≠ .str) (hn : n ≠ "decimal") :
    walkMembersT hasFrame isNull (.sub k n fs ps b) = walkLevel hasFrame isNull fs ps := by
  unfold walkMembersT
  simp [hk, hn, hb]

/-- C3 witness: the amended behaviour at the concrete enum type. -/
theorem enum_base_stops_walk_witness :
    walkMembersT true false
        (.sub .valuetype "Season"
          [⟨"value__", true, false, false, false, true⟩,
           ⟨"Spring", true, true, true, false, false⟩]
          []
          (.leaf .cls "System.Enum" [] [])) =
      walkLevel true false
        [⟨"value__", true, false, false, false, true⟩,
         ⟨"Spring", true, true, true, false, false⟩]
        [] :=
  enum_base_stops_walk true false .valuetype "Season"
    [⟨"value__", true, false, false, false, true⟩,
     ⟨"Spring", true, true, true, false, false⟩]
    []
    (.leaf .cls "System.Enum" [] []) rfl (by decide) (by decide)

/-- C4 counterexample: a hoisted-capture container found INSIDE an
already-flattened container is dropped, not flattened — valuewalk.cpp lines
386-387 return `S_OK` without walking the nested member, so neither the
nested container nor any of its members (here `x`) is emitted. The claimed
composition across nesting levels is false. -/
theorem nested_capture_container_is_dropped :
    handleSpecialLocalVar "CS$<>8__locals1"
        (VTree.node [("CS$<>8__locals2", VTree.node [("x", VTree.node [])])]) =
      some [] := by
  rfl

/-- C4 (amended): the hoisted-capture substitution does NOT compose across
nesting levels. Flattening a marker-named local emits exactly its immediate
members whose names do not start with the marker; marker-named members are
dropped together with their entire contents. In the `this`-parameter path one
extra level is flattened: every emission is either an immediate non-marker
member of the display class (renamed to `this` when its name is empty), or an
immediate non-marker member of a marker-named member of the display class —
never anything deeper. -/
theorem capture_flattening_depth :
    (∀ (nm : String) (v : VTree) (out : List (String × VTree)),
      handleSpecialLocalVar nm v = some out →
      ∀ q ∈ out, q ∈ v.members ∧ startsWithCapture q.1 = false) ∧
    (∀ (tn : String) (v : VTree) (out : List (String × VTree)),
      handleSpecialThisParam tn v = some out →
      ∀ q ∈ out, startsWithCapture q.1 = false ∧
        ((∃ n, (n, q.2) ∈ v.members ∧ startsWithCapture n = false ∧
            (q.1 = n ∨ (n = "" ∧ q.1 = "this"))) ∨
         (∃ cn cv, (cn, cv) ∈ v.members ∧ startsWithCapture cn = true ∧
            q ∈ cv.members))) := by
  have hlocal : ∀ (nm : String) (v : VTree) (out : List (String × VTree)),
      handleSpecialLocalVar nm v = some out →
      ∀ q ∈ out, q ∈ v.members ∧ startsWithCapture q.1 = false := by
    intro nm v out h q hq
    unfold handleSpecialLocalVar at h
    split_ifs at h
    have hout : out = v.members.filter (fun p => !startsWithCapture p.1) :=
      (Option.some.inj h).symm
    rw [hout] at hq
    have := List.mem_filter.mp hq
    exact ⟨this.1, by simpa using this.2⟩
  refine ⟨hlocal, ?_⟩
  intro tn v out h q hq
  unfold handleSpecialThisParam at h
  cases hdot : afterLastDot tn with
  | none => rw [hdot] at h; cases h
  | some simpleName =>
    rw [hdot] at h
    dsimp only at h
    split_ifs at h
    · rw [← Option.some.inj h] at hq
      cases hq
    · have hout : out = v.members.flatMap (fun p =>
          match handleSpecialLocalVar p.1 p.2 with
          | some ems => ems
          | none => [(if p.1 = "" then "this" else p.1, p.2)]) :=
        (Option.some.inj h).symm
      rw [hout] at hq
      rcases List.mem_flatMap.mp hq with ⟨⟨n, mv⟩, hmem, hqin⟩
      cases hh : handleSpecialLocalVar n mv with
      | some ems =>
        rw [hh] at hqin
        have hcap : startsWithCapture n = true := by
          by_contra hc
          have : startsWithCapture n = false := by
            cases hsc : startsWithCapture n
            · rfl
            · exact absurd hsc hc
          unfold handleSpecialLocalVar at hh
          rw [this] at hh
          cases hh
        have hq2 := hlocal n mv ems hh q hqin
        exact ⟨hq2.2, Or.inr ⟨n, mv, hmem, hcap, hq2.1⟩⟩
      | none =>
        rw [hh] at hqin
        have hqeq : q = (if n = "" then "this" else n, mv) := List.mem_singleton.mp hqin
        have hncap : startsWithCapture n = false := by
          unfold handleSpecialLocalVar at hh
          cases hsc : startsWithCapture n
          · rfl
          · rw [hsc] at hh
            simp at hh
        subst hqeq
        by_cases hne : n = ""
        · subst hne
          exact ⟨(by decide : startsWithCapture "this" = false),
            Or.inl ⟨"", hmem, (by decide : startsWithCapture "" = false),
              Or.inr ⟨rfl, rfl⟩⟩⟩
        · refine ⟨?_, Or.inl ⟨n, hmem, hncap, Or.inl (by simp [hne])⟩⟩
          simpa [hne] using hncap

/-- C4 witness: the amended flattening on a concrete display class with one
plain member `a`, one empty-named member, and one nested capture container. -/
theorem capture_flattening_depth_witness :
    (("a", VTree.node []) ∈ (VTree.node [("a", VTree.node [])]).members ∧
      startsWithCapture "a" = false) ∧
    (startsWithCapture "b" = false ∧
      ((∃ n, (n, VTree.node []) ∈ (VTree.node [("CS$<>8__x", VTree.node [("b", VTree.node [])])]).members ∧
          startsWithCapture n = false ∧
          ("b" = n ∨ (n = "" ∧ "b" = "this"))) ∨
       (∃ cn cv, (cn, cv) ∈ (VTree.node [("CS$<>8__x", VTree.node [("b", VTree.node [])])]).members ∧
          startsWithCapture cn = true ∧
          ("b", VTree.node []) ∈ cv.members))) :=
  ⟨capture_flattening_depth.1 "CS$<>8__y" (VTree.node [("a", VTree.node [])])
      [("a", VTree.node [])] rfl ("a", VTree.node [])
      (List.mem_singleton.mpr rfl),
   capture_flattening_depth.2 "Program.<>c__DisplayClass0_0"
      (VTree.node [("CS$<>8__x", VTree.node [("b", VTree.node [])])])
      [("b", VTree.node [])] rfl ("b", VTree.node [])
      (List.mem_singleton.mpr rfl)⟩

/-- A character list without `'.'` has no suffix-after-last-dot. -/
theorem afterLastDotL_eq_none {cs : List Char} (h : ('.' : Char) ∉ cs) :
    afterLastDotL cs = none := by
  induction cs with
  | nil => rfl
  | cons c cs ih =>
    have hc : c ≠ '.' := fun e => h (e ▸ List.mem_cons_self c cs)
    have hcs := ih fun hm => h (List.mem_cons_of_mem _ hm)
    simp [afterLastDotL, hcs, hc]

/-- C8: when the display name of a `this` argument's exact type contains no
`'.'` character, `HandleSpecialThisParam` returns `S_FALSE` at valuewalk.cpp
lines 406-408 before any marker test, so the stack walk emits the argument
normally under the name `this` — no closure flattening and no static-closure
suppression — even when the whole name starts with `<>c` or
`<>c__DisplayClass`. -/
theorem plain_this_without_dot (typeName : String) (v : VTree)
    (h : ('.' : Char) ∉ typeName.data) :
    emitThisParam typeName v = [("this", v)] := by
  have hd : afterLastDot typeName = none := by
    unfold afterLastDot
    rw [afterLastDotL_eq_none h]
    rfl
  unfold emitThisParam handleSpecialThisParam
  rw [hd]

/-- C8 witness: a dot-free display-class name starting with
`<>c__DisplayClass` is emitted as a plain `this`. -/
theorem plain_this_without_dot_witness :
    emitThisParam "<>c__DisplayClass0_0" (VTree.node []) =
      [("this", VTree.node [])] :=
  plain_this_without_dot "<>c__DisplayClass0_0" (VTree.node []) (by decide)

/-- Appending one event to a trace steps the flag once. -/
theorem flagAfter_append_singleton (xs : List EvEvent) (e : EvEvent) :
    flagAfter (xs ++ [e]) = flagStep (flagAfter xs) e := by
  simp [flagAfter, List.foldl_append]

/-- A trace ending with the flag set contains a `setFlag` event with no later
`clear` event. -/
theorem flagAfter_true_decomp (l : List EvEvent) (h : flagAfter l = true) :
    ∃ (q : Nat) (k : Bool), l[q]? = some (EvEvent.setFlagE k) ∧
      ∀ (r : Nat) (k' : Bool), q < r → l[r]? ≠ some (EvEvent.clearE k') := by
  induction l using List.reverseRecOn with
  | nil => simp [flagAfter] at h
  | append_singleton xs e ih =>
    rw [flagAfter_append_singleton] at h
    cases e with
    | clearE k => simp [flagStep] at h
    | setFlagE k =>
      refine ⟨xs.length, k, ?_, ?_⟩
      · rw [List.getElem?_append_right (Nat.le_refl _)]
        simp
      · intro r k' hr hget
        have hlen : r < (xs ++ [EvEvent.setFlagE k]).length :=
          (List.getElem?_eq_some_iff.mp hget).1
        rw [List.length_append, List.length_singleton] at hlen
        omega
    | resumeE k =>
      have h' : flagAfter xs = true := h
      obtain ⟨q, k0, hq, hnc⟩ := ih h'
      have hqlt : q < xs.length := (List.getElem?_eq_some_iff.mp hq).1
      refine ⟨q, k0, ?_, ?_⟩
      · rw [List.getElem?_append_left hqlt]
        exact hq
      · intro r k' hr hget
        rcases Nat.lt_trichotomy r xs.length with hlt | heq | hgt
        · rw [List.getElem?_append_left hlt] at hget
          exact hnc r k' hr hget
        · subst heq
          rw [List.getElem?_append_right (Nat.le_refl _)] at hget
          simp at hget
        · have hlen : r < (xs ++ [EvEvent.resumeE k]).length :=
            (List.getElem?_eq_some_iff.mp hget).1
          rw [List.length_append, List.length_singleton] at hlen
          omega
    | wakeE k =>
      have h' : flagAfter xs = true := h
      obtain ⟨q, k0, hq, hnc⟩ := ih h'
      have hqlt : q < xs.length := (List.getElem?_eq_some_iff.mp hq).1
      refine ⟨q, k0, ?_, ?_⟩
      · rw [List.getElem?_append_left hqlt]
        exact hq
      · intro r k' hr hget
        rcases Nat.lt_trichotomy r xs.length with hlt | heq | hgt
        · rw [List.getElem?_append_left hlt] at hget
          exact hnc r k' hr hget
        · subst heq
          rw [List.getElem?_append_right (Nat.le_refl _)] at hget
          simp at hget
        · have hlen : r < (xs ++ [EvEvent.wakeE k]).length :=
            (List.getElem?_eq_some_iff.mp hget).1
          rw [List.length_append, List.length_singleton] at hlen
          omega

/-- In a valid run, the wait of evaluation `k` is released by a completion
signal set strictly after that evaluation's own clear. -/
theorem validRun_setFlag_between (tr : List EvEvent) (V : ValidRun tr) :
    ∀ k, epos tr (.clearE k) < epos tr (.setFlagE k) ∧
      epos tr (.setFlagE k) < epos tr (.wakeE k) := by
  have hmemC : ∀ j, EvEvent.clearE j ∈ tr := fun j =>
    List.count_pos_iff.mp (by rw [V.onceClear j]; omega)
  have hmemS : ∀ j, EvEvent.setFlagE j ∈ tr := fun j =>
    List.count_pos_iff.mp (by rw [V.onceSet j]; omega)
  -- the set-flag position found inside a wake's prefix is that event's
  -- unique position in the whole trace
  have key : ∀ j, ∃ k0, epos tr (.setFlagE k0) < epos tr (.wakeE j) ∧
      ∀ (r : Nat) (k' : Bool), epos tr (.setFlagE k0) < r → r < epos tr (.wakeE j) →
        tr[r]? ≠ some (EvEvent.clearE k') := by
    intro j
    obtain ⟨q, k0, hq, hnc⟩ := flagAfter_true_decomp _ (V.wakeSeesFlag j)
    have hqP : q < (tr.take (epos tr (.wakeE j))).length :=
      (List.getElem?_eq_some_iff.mp hq).1
    rw [List.length_take] at hqP
    have hqlt : q < epos tr (.wakeE j) := lt_of_lt_of_le hqP (min_le_left _ _)
    have hq' : tr[q]? = some (EvEvent.setFlagE k0) := by
      rw [← List.getElem?_take_of_lt hqlt]
      exact hq
    have hq_eq : q = epos tr (.setFlagE k0) :=
      getElem?_some_eq_indexOf tr (.setFlagE k0) (V.onceSet k0) q hq'
    refine ⟨k0, hq_eq ▸ hqlt, ?_⟩
    intro r k' hr1 hr2 hget
    exact hnc r k' (hq_eq ▸ hr1) (by rw [List.getElem?_take_of_lt hr2]; exact hget)
  -- the first evaluation is released by its own signal
  have step1 : epos tr (.setFlagE false) < epos tr (.wakeE false) := by
    obtain ⟨k0, hlt, _⟩ := key false
    cases k0 with
    | false => exact hlt
    | true =>
      exfalso
      have h1 := V.setAfterResume true
      have h2 := V.clearBeforeResume true
      have h3 := V.firstWakeBeforeSecondClear
      omega
  -- the second evaluation is released by its own signal
  have step2 : epos tr (.setFlagE true) < epos tr (.wakeE true) := by
    obtain ⟨k0, hlt, hnc⟩ := key true
    cases k0 with
    | true => exact hlt
    | false =>
      exfalso
      have hclt_wake : epos tr (.clearE true) < epos tr (.wakeE true) := by
        have := V.clearBeforeResume true
        have := V.resumeBeforeWake true
        omega
      have hcl_get : tr[epos tr (.clearE true)]? = some (EvEvent.clearE true) :=
        List.getElem?_indexOf (hmemC true)
      apply hnc (epos tr (.clearE true)) true ?_ hclt_wake hcl_get
      have := V.firstWakeBeforeSecondClear
      omega
  intro k
  cases k with
  | false =>
    refine ⟨?_, step1⟩
    have := V.clearBeforeResume false
    have := V.setAfterResume false
    omega
  | true =>
    refine ⟨?_, step2⟩
    have := V.clearBeforeResume true
    have := V.setAfterResume true
    omega

/-- C7: in `WaitEvalResult`, the completion flag is cleared after the mutex is
acquired and before the process is resumed (valuewalk.cpp lines 40-42), with
the mutex held at the clear; and in every valid interleaving of two
sequential evaluations, each evaluation's wait is released by a completion
signal produced strictly after that evaluation's own clear (hence after its
own resume, by the protocol) and before its wake — never by the prior call's
stale signal. -/
theorem eval_completion_freshness :
    (List.indexOf DbgAction.lockMutex waitEvalResultActions <
        List.indexOf DbgAction.clearFlagA waitEvalResultActions ∧
      List.indexOf DbgAction.clearFlagA waitEvalResultActions <
        List.indexOf DbgAction.resumeProcessA waitEvalResultActions ∧
      muRun (waitEvalResultActions.take
        (List.indexOf DbgAction.clearFlagA waitEvalResultActions)) = some true) ∧
    ∀ tr, ValidRun tr → ∀ k, epos tr (.clearE k) < epos tr (.setFlagE k) ∧
      epos tr (.setFlagE k) < epos tr (.wakeE k) := by
  refine ⟨⟨by decide, by decide, by decide⟩, ?_⟩
  intro tr V
  exact validRun_setFlag_between tr V

/-- C7 witness: the canonical sequential trace of two evaluations is a valid
run, and each evaluation observes its own signal. -/
theorem eval_completion_freshness_witness :
    epos [EvEvent.clearE false, .resumeE false, .setFlagE false, .wakeE false,
        .clearE true, .resumeE true, .setFlagE true, .wakeE true] (.clearE true) <
      epos [EvEvent.clearE false, .resumeE false, .setFlagE false, .wakeE false,
        .clearE true, .resumeE true, .setFlagE true, .wakeE true] (.setFlagE true) ∧
    epos [EvEvent.clearE false, .resumeE false, .setFlagE false, .wakeE false,
        .clearE true, .resumeE true, .setFlagE true, .wakeE true] (.setFlagE true) <
      epos [EvEvent.clearE false, .resumeE false, .setFlagE false, .wakeE false,
        .clearE true, .resumeE true, .setFlagE true, .wakeE true] (.wakeE true) :=
  eval_completion_freshness.2
    [EvEvent.clearE false, .resumeE false, .setFlagE false, .wakeE false,
      .clearE true, .resumeE true, .setFlagE true, .wakeE true]
    { onceClear := by decide
      onceResume := by decide
      onceSet := by decide
      onceWake := by decide
      clearBeforeResume := by decide
      resumeBeforeWake := by decide
      firstWakeBeforeSecondClear := by decide
      setAfterResume := by decide
      wakeSeesFlag := by decide }
    true

end NetCoreDbg
